import Mathlib

/-!
Shallow embedding of the `can` string codec and header model from
`socketcan_interface` (`src/string.cpp`, `include/socketcan_interface/interface.hpp`).

Machine integers (`unsigned int`, `uint8_t`) are modelled as `Nat` with explicit
`% 2^w` at the points where the C++ types truncate (the 29-bit `id` bitfield, the
`char → uint8_t` conversion).  `bool`-returning C++ functions with out-parameters
are modelled as functions returning a pair (or an `Option` for `hex2dec`).
-/

namespace Can

/-! ## Header model (`interface.hpp`) -/

def ID_MASK : Nat := 2 ^ 29 - 1
def ERROR_MASK : Nat := 2 ^ 29
def RTR_MASK : Nat := 2 ^ 30
def EXTENDED_MASK : Nat := 2 ^ 31

/-- C++ `can::Header`: bit-field struct `id:29, is_error:1, is_rtr:1, is_extended:1`.
The three one-bit fields are modelled as `Bool`; the 29-bit `id` field as a `Nat`
(which every constructor truncates modulo `2^29`, as the bit-field does). -/
structure Header where
  id : Nat
  is_error : Bool
  is_rtr : Bool
  is_extended : Bool
deriving DecidableEq, Repr

/-- C++ `Header::Header(unsigned int i, bool extended, bool rtr, bool error)`:
assigning `i` to the 29-bit bit-field keeps only the low 29 bits. -/
def mkHeader (i : Nat) (extended rtr error : Bool) : Header :=
  ⟨i % 2 ^ 29, error, rtr, extended⟩

/-- C++ `Header::isValid()`: `id < (is_extended ? (1 << 29) : (1 << 11))`. -/
def Header.isValid (h : Header) : Bool :=
  decide (h.id < if h.is_extended then 2 ^ 29 else 2 ^ 11)

/-- C++ `Header::fullid()`: `id` with the flag masks or-ed in. -/
def Header.fullid (h : Header) : Nat :=
  h.id ||| (if h.is_error then ERROR_MASK else 0) |||
    (if h.is_rtr then RTR_MASK else 0) ||| (if h.is_extended then EXTENDED_MASK else 0)

/-- C++ `can::Frame`: a `Header` plus `dlc` and an 8-byte data array.  The data
array is modelled as a list of 8 bytes; C++ leaves unwritten cells indeterminate,
modelled here as 0. -/
structure Frame where
  header : Header
  dlc : Nat
  data : List Nat
deriving DecidableEq, Repr

/-- C++ `Frame::isValid()`: `dlc <= 8 && Header::isValid()`. -/
def Frame.isValid (f : Frame) : Bool :=
  decide (f.dlc ≤ 8) && f.header.isValid

/-! ## Hex codec (`string.cpp`) -/

/-- C++ `hex2dec(uint8_t & d, const char & h)`: the `bool` result and the
out-parameter are modelled as an `Option`. -/
def hex2dec (h : Char) : Option Nat :=
  if '0' ≤ h ∧ h ≤ '9' then some (h.toNat - '0'.toNat)
  else if 'a' ≤ h ∧ h ≤ 'f' then some (h.toNat - 'a'.toNat + 10)
  else if 'A' ≤ h ∧ h ≤ 'F' then some (h.toNat - 'A'.toNat + 10)
  else none

/-- C++ `dec2hex(char & h, const uint8_t & d, bool lc)`: returns the success
flag together with the character written to `h` (`'?'` in the failure branch). -/
def dec2hex (d : Nat) (lc : Bool) : Bool × Char :=
  if d < 10 then (true, Char.ofNat ('0'.toNat + d))
  else if d < 16 ∧ lc = true then (true, Char.ofNat ('a'.toNat + (d - 10)))
  else if d < 16 ∧ lc = false then (true, Char.ofNat ('A'.toNat + (d - 10)))
  else (false, '?')

/-- C++ `byte2hex(const uint8_t & d, bool pad, bool lc)`: emits the high nibble
when it is nonzero or padding is requested, then the low nibble.  (As in the
source, the `dec2hex` success flag is ignored here.) -/
def byte2hex (d : Nat) (pad lc : Bool) : List Char :=
  (if d >>> 4 ≠ 0 ∨ pad = true then [(dec2hex (d >>> 4) lc).2] else []) ++
    [(dec2hex (d &&& 0xf) lc).2]

/-- Loop of C++ `buffer2hex`, with the accumulated string `acc`: an empty
`byte2hex` result aborts and returns the empty string. -/
def buffer2hexAux (inp : List Nat) (lc : Bool) (acc : List Char) : List Char :=
  match inp with
  | [] => acc
  | d :: rest =>
    let b := byte2hex (d % 256) true lc
    if b = [] then b else buffer2hexAux rest lc (acc ++ b)

/-- C++ `buffer2hex(const std::string & in, bool lc)`: each `char` of `in` is
converted to `uint8_t` (`% 256`) and encoded with forced two-digit padding. -/
def buffer2hex (inp : List Nat) (lc : Bool) : List Char :=
  buffer2hexAux inp lc []

/-- C++ `std::string::resize(n)` on the output buffer: truncate or extend
with zero bytes. -/
def resize (l : List Nat) (n : Nat) : List Nat :=
  l.take n ++ List.replicate (n - l.length) 0

/-- Loop of C++ `hex2buffer`: consumes the (even-length) input two characters at
a time, writing `(hi << 4) | lo` to `out[i]`; a non-hex character aborts with
the partially written buffer.  (The C++ loop runs `i` over `out`'s indices and
reads `in[2i]`, `in[2i+1]`; since `hex2buffer` always calls it with
`out.length = inp.length / 2` and `inp` of even length, consuming `inp` in pairs
is the same iteration.) -/
def hex2bufferLoop (out : List Nat) (inp : List Char) (i : Nat) : Bool × List Nat :=
  match inp with
  | c1 :: c2 :: rest =>
    match hex2dec c1, hex2dec c2 with
    | some hi, some lo => hex2bufferLoop (out.set i ((hi <<< 4) ||| lo)) rest (i + 1)
    | _, _ => (false, out)
  | _ => (true, out)

/-- C++ `hex2buffer(std::string & out, const std::string & in_raw, bool pad)`:
odd-length input is rejected (before touching `out`) unless `pad` requests a
leading `'0'`; then `out` is resized to half the input length and filled. -/
def hex2buffer (out : List Nat) (inRaw : List Char) (pad : Bool) : Bool × List Nat :=
  if inRaw.length % 2 ≠ 0 ∧ pad = false then (false, out)
  else
    let inp := if inRaw.length % 2 ≠ 0 then '0' :: inRaw else inRaw
    hex2bufferLoop (resize out (inp.length / 2)) inp 0

/-! ## Header/frame text codec (`string.cpp`) -/

def hexVal (c : Char) : Nat := (hex2dec c).getD 0

/-- C++ `tohex(const std::string & s)`: `stringstream >> std::hex` extraction.
Modelled as: parse the longest leading run of hex digits most-significant first;
overflow clamps to `UINT_MAX = 2^32 - 1` (the C++11 `num_get` overflow result);
an empty run extracts 0. -/
def tohex (s : List Char) : Nat :=
  let ds := s.takeWhile (fun c => (hex2dec c).isSome)
  min (ds.foldl (fun a c => a * 16 + hexVal c) 0) (2 ^ 32 - 1)

/-- C++ `toheader(const std::string & s)`. -/
def toheader (s : List Char) : Header :=
  let h := tohex s
  let id := h &&& ID_MASK
  mkHeader id
    (decide (h &&& EXTENDED_MASK ≠ 0) || (decide (s.length = 8) && decide (2 ^ 11 ≤ id)))
    (decide (h &&& RTR_MASK ≠ 0))
    (decide (h &&& ERROR_MASK ≠ 0))

/-- Minimal-digit hex rendering of `stringstream << std::hex`, digit characters
as produced by the stream's `uppercase`/`nouppercase` flag (the same characters
`dec2hex` produces). -/
def hexDigits (n : Nat) (lc : Bool) : List Char :=
  if n = 0 then [] else hexDigits (n / 16) lc ++ [(dec2hex (n % 16) lc).2]

/-- `stringstream << std::hex << n`: zero renders as `"0"`, otherwise minimal
digits. -/
def hexRender (n : Nat) (lc : Bool) : List Char :=
  if n = 0 then ['0'] else hexDigits n lc

/-- `std::setfill('0') << std::setw(8)`: left-pad with `'0'` to width `w`. -/
def leftPad0 (w : Nat) (l : List Char) : List Char :=
  List.replicate (w - l.length) '0' ++ l

/-- C++ `tostring(const Header & h, bool lc)`: renders `fullid() & ~EXTENDED_MASK`
(`~EXTENDED_MASK` on a 32-bit `unsigned` is `2^31 - 1`) in hex, zero-padded to
8 digits for extended headers. -/
def tostring_header (h : Header) (lc : Bool) : List Char :=
  let v := h.fullid &&& (2 ^ 31 - 1)
  if h.is_extended then leftPad0 8 (hexRender v lc) else hexRender v lc

/-- `s.find('#')` as a split: `none` when no `'#'` occurs, otherwise the text
before and after the first `'#'`. -/
def findSep : List Char → Option (List Char × List Char)
  | [] => none
  | c :: cs =>
    if c = '#' then some ([], cs)
    else (findSep cs).map (fun p => (c :: p.1, p.2))

/-- `Frame(MsgHeader(0xfff))`: the invalid-frame sentinel returned by `toframe`. -/
def sentinelFrame : Frame :=
  ⟨mkHeader 0xfff false false false, 0, List.replicate 8 0⟩

/-- C++ `toframe(const std::string & s)`. -/
def toframe (s : List Char) : Frame :=
  match findSep s with
  | none => sentinelFrame
  | some (pre, post) =>
    let header := toheader pre
    if header.isValid = true then
      match hex2buffer [] post false with
      | (true, buffer) =>
        if 8 < buffer.length then sentinelFrame
        else ⟨header, buffer.length, buffer ++ List.replicate (8 - buffer.length) 0⟩
      | (false, _) => ⟨header, 0, List.replicate 8 0⟩
    else ⟨header, 0, List.replicate 8 0⟩

/-! ## Filters (`tofilter<std::string>` in `string.cpp`) -/

/-- The delimiter set of `s.find_first_of(":~-_")`. -/
def isFilterDelim (c : Char) : Bool :=
  c = ':' || c = '~' || c = '-' || c = '_'

/-- `s.find_first_of(":~-_")` as a split on the first delimiter. -/
def splitDelim : List Char → Option (List Char × Char × List Char)
  | [] => none
  | c :: cs =>
    if isFilterDelim c then some ([], c, cs)
    else (splitDelim cs).map (fun p => (c :: p.1, p.2.1, p.2.2))

/-- The two concrete `FrameFilter` kinds built by `tofilter<std::string>`
(`FrameMaskFilter(first, second, invert)` / `FrameRangeFilter(first, second,
invert)`), as a value type carrying their constructor arguments. -/
inductive FrameFilter where
  | mask (can_id maskv : Nat) (invert : Bool)
  | range (low high : Nat) (invert : Bool)
deriving DecidableEq, Repr

/-- Modelled from the spec: `FrameMaskFilter::MASK_RELAXED` (defined in
`filter.hpp`, which is not part of the sources) — "a relaxed
all-ones-except-flags mask", i.e. all 29 id bits set and the three flag bits
clear. -/
def MASK_RELAXED : Nat := 2 ^ 29 - 1

/-- C++ `tofilter<std::string>`: a null `FrameFilter *` result is `none`.
Without a delimiter, `type` keeps its initial `':'` and `second` its initial
`MASK_RELAXED`, so the `switch` builds a non-inverted mask filter from the whole
string; with a delimiter, `'~'`/`'_'` fall through to `':'`/`'-'` with
`invert = true`. -/
def tofilter (s : List Char) : Option FrameFilter :=
  match splitDelim s with
  | none => some (.mask (toheader s).fullid MASK_RELAXED false)
  | some (pre, ty, post) =>
    let second := tohex post
    let first := (toheader pre).fullid
    match ty with
    | '~' => some (.mask first second true)
    | ':' => some (.mask first second false)
    | '_' => some (.range first second true)
    | '-' => some (.range first second false)
    | _ => none

/-! ## Helper lemmas -/

/-- `dec2hex` always yields a character that `hex2dec` decodes back, for any
nibble value. -/
theorem hex2dec_dec2hex_fin : ∀ (d : Fin 16) (lc : Bool),
    hex2dec (dec2hex d.val lc).2 = some d.val := by decide

theorem hex2dec_dec2hex (d : Nat) (hd : d < 16) (lc : Bool) :
    hex2dec (dec2hex d lc).2 = some d :=
  hex2dec_dec2hex_fin ⟨d, hd⟩ lc

theorem hexVal_dec2hex (d : Nat) (hd : d < 16) (lc : Bool) :
    hexVal (dec2hex d lc).2 = d := by
  rw [hexVal, hex2dec_dec2hex d hd lc, Option.getD_some]

theorem hexDigits_hex (lc : Bool) (n : Nat) :
    ∀ c ∈ hexDigits n lc, (hex2dec c).isSome = true := by
  induction n using Nat.strong_induction_on with
  | _ n ih =>
    rw [hexDigits]
    by_cases h : n = 0
    · simp [h]
    · rw [if_neg h]
      intro c hc
      rcases List.mem_append.mp hc with hc | hc
      · exact ih (n / 16) (Nat.div_lt_self (Nat.pos_of_ne_zero h) (by norm_num)) c hc
      · rcases List.mem_singleton.mp hc with rfl
        rw [hex2dec_dec2hex (n % 16) (Nat.mod_lt _ (by norm_num)) lc]
        rfl

theorem hexDigits_parse (lc : Bool) (n : Nat) :
    (hexDigits n lc).foldl (fun a c => a * 16 + hexVal c) 0 = n := by
  induction n using Nat.strong_induction_on with
  | _ n ih =>
    rw [hexDigits]
    by_cases h : n = 0
    · simp [h]
    · rw [if_neg h, List.foldl_append,
        ih (n / 16) (Nat.div_lt_self (Nat.pos_of_ne_zero h) (by norm_num))]
      simp only [List.foldl_cons, List.foldl_nil]
      rw [hexVal_dec2hex (n % 16) (Nat.mod_lt _ (by norm_num)) lc]
      omega

theorem hexDigits_length (lc : Bool) (n : Nat) :
    ∀ k, n < 16 ^ k → (hexDigits n lc).length ≤ k := by
  induction n using Nat.strong_induction_on with
  | _ n ih =>
    intro k hk
    rw [hexDigits]
    by_cases h : n = 0
    · simp [h]
    · rw [if_neg h]
      rcases k with _ | k
      · omega
      · rw [List.length_append, List.length_singleton]
        have hdiv : n / 16 < 16 ^ k := by
          rw [Nat.div_lt_iff_lt_mul (by norm_num)]
          calc n < 16 ^ (k + 1) := hk
            _ = 16 ^ k * 16 := by ring
        have := ih (n / 16) (Nat.div_lt_self (Nat.pos_of_ne_zero h) (by norm_num)) k hdiv
        omega

theorem hexRender_hex (lc : Bool) (n : Nat) :
    ∀ c ∈ hexRender n lc, (hex2dec c).isSome = true := by
  rw [hexRender]
  by_cases h : n = 0
  · simp [h]; decide
  · rw [if_neg h]; exact hexDigits_hex lc n

theorem hexRender_parse (lc : Bool) (n : Nat) :
    (hexRender n lc).foldl (fun a c => a * 16 + hexVal c) 0 = n := by
  rw [hexRender]
  by_cases h : n = 0
  · simp [h]; decide
  · rw [if_neg h]; exact hexDigits_parse lc n

theorem hexRender_length (lc : Bool) (n k : Nat) (hk : n < 16 ^ k) (hk0 : 0 < k) :
    (hexRender n lc).length ≤ k := by
  rw [hexRender]
  by_cases h : n = 0
  · simpa [h] using hk0
  · rw [if_neg h]; exact hexDigits_length lc n k hk

theorem foldl_replicate_zero (m : Nat) :
    (List.replicate m '0').foldl (fun a c => a * 16 + hexVal c) 0 = 0 := by
  induction m with
  | zero => rfl
  | succ m ih => simpa [List.replicate_succ] using ih

/-- `tohex` on a string of hex digits is the clamped most-significant-first fold. -/
theorem tohex_of_hexlist (ds : List Char) (hds : ∀ c ∈ ds, (hex2dec c).isSome = true) :
    tohex ds = min (ds.foldl (fun a c => a * 16 + hexVal c) 0) (2 ^ 32 - 1) := by
  rw [tohex, List.takeWhile_eq_self_iff.mpr hds]

theorem tohex_hexRender (lc : Bool) (v : Nat) (hv : v < 2 ^ 32) :
    tohex (hexRender v lc) = v := by
  rw [tohex_of_hexlist _ (hexRender_hex lc v), hexRender_parse]
  omega

theorem tohex_leftPad0_hexRender (lc : Bool) (w v : Nat) (hv : v < 2 ^ 32) :
    tohex (leftPad0 w (hexRender v lc)) = v := by
  rw [leftPad0, tohex_of_hexlist, List.foldl_append, foldl_replicate_zero, hexRender_parse]
  · omega
  · intro c hc
    rcases List.mem_append.mp hc with hc | hc
    · rcases List.eq_of_mem_replicate hc with rfl; decide
    · exact hexRender_hex lc v c hc

/-- Bitwise or of a low part below `2^k` and a multiple of `2^k` is addition. -/
theorem lor_high (k b a : Nat) (ha : a < 2 ^ k) : a ||| 2 ^ k * b = a + 2 ^ k * b := by
  rw [Nat.lor_comm, ← Nat.mul_add_lt_is_or ha, Nat.add_comm]

/-- `fullid` decomposed into plain arithmetic, valid whenever the `id` field is
in its 29-bit range (always true for constructed headers). -/
theorem fullid_decomp (h : Header) (hid : h.id < 2 ^ 29) :
    h.fullid = h.id + 2 ^ 29 * h.is_error.toNat + 2 ^ 30 * h.is_rtr.toNat +
      2 ^ 31 * h.is_extended.toNat := by
  have he := Bool.toNat_le h.is_error
  have hr := Bool.toNat_le h.is_rtr
  have hb1 : (if h.is_error then ERROR_MASK else 0) = 2 ^ 29 * h.is_error.toNat := by
    cases h.is_error <;> simp [ERROR_MASK]
  have hb2 : (if h.is_rtr then RTR_MASK else 0) = 2 ^ 30 * h.is_rtr.toNat := by
    cases h.is_rtr <;> simp [RTR_MASK]
  have hb3 : (if h.is_extended then EXTENDED_MASK else 0) = 2 ^ 31 * h.is_extended.toNat := by
    cases h.is_extended <;> simp [EXTENDED_MASK]
  rw [Header.fullid, hb1, hb2, hb3, lor_high 29 _ _ hid,
    lor_high 30 _ _ (by omega), lor_high 31 _ _ (by omega)]

/-- A single-bit mask extracts the bit as seen through division and remainder. -/
theorem and_two_pow_div_mod (v k : Nat) : v &&& 2 ^ k = (v / 2 ^ k % 2) * 2 ^ k := by
  rw [Nat.and_two_pow, Nat.testBit_to_div_mod]
  rcases Nat.mod_two_eq_zero_or_one (v / 2 ^ k) with h | h <;> simp [h]

/-- The four fields of `toheader s`, written in div/mod arithmetic. -/
theorem toheader_fields (s : List Char) :
    toheader s = ⟨tohex s % 2 ^ 29,
      decide (tohex s / 2 ^ 29 % 2 = 1),
      decide (tohex s / 2 ^ 30 % 2 = 1),
      decide (tohex s / 2 ^ 31 % 2 = 1) ||
        (decide (s.length = 8) && decide (2 ^ 11 ≤ tohex s % 2 ^ 29))⟩ := by
  simp only [toheader, mkHeader, ID_MASK, EXTENDED_MASK, RTR_MASK, ERROR_MASK,
    Nat.and_pow_two_sub_one_eq_mod, Header.mk.injEq]
  refine ⟨by omega, ?_, ?_, ?_⟩
  · simp only [and_two_pow_div_mod]
    rcases Nat.mod_two_eq_zero_or_one (tohex s / 2 ^ 29) with h | h <;> simp [h]
  · simp only [and_two_pow_div_mod]
    rcases Nat.mod_two_eq_zero_or_one (tohex s / 2 ^ 30) with h | h <;> simp [h]
  · simp only [and_two_pow_div_mod]
    rcases Nat.mod_two_eq_zero_or_one (tohex s / 2 ^ 31) with h | h <;> simp [h]

/-- `findSep` returns `none` exactly when the string has no `'#'`. -/
theorem findSep_eq_none_iff (s : List Char) : findSep s = none ↔ '#' ∉ s := by
  induction s with
  | nil => simp [findSep]
  | cons c cs ih =>
    rw [findSep]
    by_cases h : c = '#'
    · simp [h]
    · rw [if_neg h, Option.map_eq_none', ih, List.mem_cons]
      constructor
      · intro hn hor
        rcases hor with hor | hor
        · exact h hor.symm
        · exact hn hor
      · intro hn hin
        exact hn (Or.inr hin)

/-- With padding forced, `byte2hex` is always the two nibble characters. -/
theorem byte2hex_pad (d : Nat) (lc : Bool) :
    byte2hex d true lc = [(dec2hex (d >>> 4) lc).2, (dec2hex (d &&& 0xf) lc).2] := by
  simp [byte2hex]

/-- Reassembling the two nibbles of a byte recovers the byte. -/
theorem nibble_recompose (b : Nat) : ((b >>> 4) <<< 4) ||| (b &&& 0xf) = b := by
  have h15 : (0xf : Nat) = 2 ^ 4 - 1 := rfl
  rw [Nat.shiftRight_eq_div_pow, Nat.shiftLeft_eq, h15, Nat.and_pow_two_sub_one_eq_mod]
  have hlow : b % 2 ^ 4 < 2 ^ 4 := Nat.mod_lt _ (by norm_num)
  have hor := Nat.mul_add_lt_is_or hlow (b / 2 ^ 4)
  rw [Nat.mul_comm (2 ^ 4) (b / 2 ^ 4)] at hor
  rw [← hor]
  omega

/-- The `buffer2hex` loop only ever accumulates, since `byte2hex` with forced
padding is never empty. -/
theorem buffer2hexAux_eq (lc : Bool) :
    ∀ (inp : List Nat) (acc : List Char),
      buffer2hexAux inp lc acc =
        acc ++ (inp.map fun d => byte2hex (d % 256) true lc).flatten := by
  intro inp
  induction inp with
  | nil => simp [buffer2hexAux]
  | cons d rest ih =>
    intro acc
    rw [buffer2hexAux]
    simp only [byte2hex_pad]
    rw [if_neg (by simp)]
    rw [ih]
    simp [byte2hex_pad]

theorem buffer2hex_flatten (inp : List Nat) (lc : Bool) :
    buffer2hex inp lc = (inp.map fun d => byte2hex (d % 256) true lc).flatten := by
  rw [buffer2hex, buffer2hexAux_eq, List.nil_append]

theorem buffer2hex_length (inp : List Nat) (lc : Bool) :
    (buffer2hex inp lc).length = 2 * inp.length := by
  rw [buffer2hex_flatten]
  induction inp with
  | nil => rfl
  | cons d rest ih => simp [byte2hex_pad] at ih ⊢; omega

/-- Taking one past a just-written cell splits off the written value. -/
theorem take_set_succ (out : List Nat) (i : Nat) (b : Nat) (h : i < out.length) :
    (out.set i b).take (i + 1) = out.take i ++ [b] := by
  rw [List.set_eq_take_cons_drop b h,
    show out.take i ++ b :: out.drop (i + 1) = (out.take i ++ [b]) ++ out.drop (i + 1) by simp]
  exact List.take_left' (by simp; omega)

/-- The `hex2buffer` loop decodes an encoded buffer back byte for byte,
writing over the region of `out` from index `i` on. -/
theorem hex2bufferLoop_decode (lc : Bool) :
    ∀ (bs out : List Nat) (i : Nat), out.length = i + bs.length → (∀ b ∈ bs, b < 256) →
      hex2bufferLoop out ((bs.map fun d => byte2hex (d % 256) true lc).flatten) i =
        (true, out.take i ++ bs) := by
  intro bs
  induction bs with
  | nil =>
    intro out i hlen _
    simp only [List.length_nil] at hlen
    simp only [List.map_nil, List.flatten_nil, hex2bufferLoop, List.append_nil]
    rw [List.take_of_length_le (by omega)]
  | cons b rest ih =>
    intro out i hlen hbs
    have hb : b < 256 := hbs b (List.mem_cons_self b rest)
    have hmod : b % 256 = b := Nat.mod_eq_of_lt hb
    have hhi : b >>> 4 < 16 := by
      rw [Nat.shiftRight_eq_div_pow]
      omega
    have hlo : b &&& 0xf < 16 := by
      have h15 : (0xf : Nat) = 2 ^ 4 - 1 := rfl
      rw [h15, Nat.and_pow_two_sub_one_eq_mod]
      omega
    have hlt : i < out.length := by
      simp only [List.length_cons] at hlen
      omega
    have hstep := ih (out.set i ((b >>> 4) <<< 4 ||| (b &&& 0xf))) (i + 1)
      (by simp only [List.length_set, List.length_cons] at hlen ⊢; omega)
      (fun x hx => hbs x (List.mem_cons_of_mem b hx))
    rw [List.map_cons, List.flatten_cons, hmod, byte2hex_pad, List.cons_append,
      List.cons_append, List.nil_append, hex2bufferLoop,
      hex2dec_dec2hex _ hhi lc, hex2dec_dec2hex _ hlo lc]
    dsimp only
    rw [hstep, nibble_recompose, take_set_succ out i b hlt]
    simp

/-! ## Claim theorems -/

/-- C3 (confirmed): `toheader` sets `is_extended` exactly when bit 31 of the
decoded value is set, or the string is exactly 8 characters and the decoded
29-bit id is at least `2^11`; `is_rtr` and `is_error` come from bits 30 and 29,
and `id` is the low 29 bits of the decoded value. -/
theorem toheader_bit_semantics (s : List Char) :
    (toheader s).id = tohex s % 2 ^ 29 ∧
      (toheader s).is_extended =
        ((tohex s).testBit 31 ||
          (decide (s.length = 8) && decide (2 ^ 11 ≤ tohex s % 2 ^ 29))) ∧
      (toheader s).is_rtr = (tohex s).testBit 30 ∧
      (toheader s).is_error = (tohex s).testBit 29 := by
  rw [toheader_fields]
  refine ⟨rfl, ?_, ?_, ?_⟩ <;> rw [Nat.testBit_to_div_mod]

/-- C6 counterexample: the tuple `(2^29, extended := true, rtr := false,
error := false)` is an invalid combination — `2^29` does not fit the 29-bit
width selected by `extended` — yet the constructed header satisfies
`isValid() = true`, because the bit-field truncates the id to `0`. -/
theorem mkHeader_overflow_cex :
    ¬ ((2 ^ 29 : Nat) < 2 ^ 29) ∧ (mkHeader (2 ^ 29) true false false).isValid = true := by
  constructor
  · omega
  · rfl

/-- C6 (amended): construction is total, and for ids within the 29-bit field
the claim holds: the constructed header is invalid exactly when the header is
standard and the (truncated) id does not fit 11 bits.  In particular an id that
(after bit-field truncation) does not fit the selected width yields
`isValid() = false`. -/
theorem mkHeader_isValid_iff (i : Nat) (extended rtr error : Bool) :
    (mkHeader i extended rtr error).isValid = false ↔
      extended = false ∧ 2 ^ 11 ≤ i % 2 ^ 29 := by
  cases extended
  · simp only [mkHeader, Header.isValid]
    simp
  · simp only [mkHeader, Header.isValid]
    simp
    omega

/-- C7 (confirmed): an input with no `'#'` makes `toframe` return the sentinel
invalid frame: a standard header with id `0xfff`, which fails `isValid()`
because `0xfff` exceeds the 11-bit range. -/
theorem toframe_no_hash_sentinel (s : List Char) (h : '#' ∉ s) :
    toframe s = sentinelFrame ∧ sentinelFrame.header.id = 0xfff ∧
      sentinelFrame.header.is_extended = false ∧ sentinelFrame.isValid = false := by
  refine ⟨?_, by decide, by decide, by decide⟩
  rw [toframe, (findSep_eq_none_iff s).mpr h]

/-- Witness for C7 at the concrete input `"123"`. -/
theorem toframe_no_hash_sentinel_witness :
    ('#' ∉ ['1', '2', '3']) ∧ toframe ['1', '2', '3'] = sentinelFrame :=
  ⟨by decide, (toframe_no_hash_sentinel ['1', '2', '3'] (by decide)).1⟩

/-- C1 counterexample: the valid extended header with id `5` does not survive
the text round-trip.  `tostring` renders it as zero-padded `"00000005"` with the
extended bit masked out, and `toheader` recovers `is_extended` only through the
8-characters-and-id-at-least-`2^11` heuristic, which fails for `5 < 2^11` — so
the header comes back standard. -/
theorem tostring_toheader_roundtrip_cex :
    (mkHeader 5 true false false).isValid = true ∧
      toheader (tostring_header (mkHeader 5 true false false) true) ≠
        mkHeader 5 true false false := by
  refine ⟨rfl, fun hcontra => ?_⟩
  have h1 : tostring_header (mkHeader 5 true false false) true = leftPad0 8 (hexRender 5 true) :=
    rfl
  rw [h1, toheader_fields, tohex_leftPad0_hexRender true 8 5 (by norm_num)] at hcontra
  have hx := congrArg Header.is_extended hcontra
  simp only [mkHeader] at hx
  norm_num at hx

/-- C1 (amended): the round-trip `toheader (tostring h lc) = h` holds for every
valid header that is standard, or extended with id at least `2^11`; it fails
exactly on the extended headers with id below `2^11` (see the counterexample). -/
theorem tostring_toheader_roundtrip (h : Header) (lc : Bool) (hv : h.isValid = true)
    (hx : h.is_extended = false ∨ 2 ^ 11 ≤ h.id) :
    toheader (tostring_header h lc) = h := by
  rcases h with ⟨id, e, r, x⟩
  simp only [Header.isValid, decide_eq_true_iff] at hv
  simp only at hx
  have hid : id < 2 ^ 29 := by cases x <;> simp at hv <;> omega
  have hfull := fullid_decomp ⟨id, e, r, x⟩ hid
  dsimp only at hfull
  have he := Bool.toNat_le e
  have hr := Bool.toNat_le r
  have hxn := Bool.toNat_le x
  have hveq : Header.fullid ⟨id, e, r, x⟩ &&& (2 ^ 31 - 1) =
      id + 2 ^ 29 * e.toNat + 2 ^ 30 * r.toNat := by
    rw [hfull, Nat.and_pow_two_sub_one_eq_mod]
    omega
  have h1 : (id + 2 ^ 29 * e.toNat + 2 ^ 30 * r.toNat) % 2 ^ 29 = id := by omega
  have h2 : (id + 2 ^ 29 * e.toNat + 2 ^ 30 * r.toNat) / 2 ^ 29 % 2 = e.toNat := by omega
  have h3 : (id + 2 ^ 29 * e.toNat + 2 ^ 30 * r.toNat) / 2 ^ 30 % 2 = r.toNat := by omega
  have h4 : (id + 2 ^ 29 * e.toNat + 2 ^ 30 * r.toNat) / 2 ^ 31 % 2 = 0 := by omega
  have hbe : decide ((id + 2 ^ 29 * e.toNat + 2 ^ 30 * r.toNat) / 2 ^ 29 % 2 = 1) = e := by
    rw [h2]; cases e <;> simp
  have hbr : decide ((id + 2 ^ 29 * e.toNat + 2 ^ 30 * r.toNat) / 2 ^ 30 % 2 = 1) = r := by
    rw [h3]; cases r <;> simp
  have hbx : decide ((id + 2 ^ 29 * e.toNat + 2 ^ 30 * r.toNat) / 2 ^ 31 % 2 = 1) = false := by
    rw [h4]; simp
  cases x with
  | false =>
    have hid11 : id < 2 ^ 11 := by simpa using hv
    have hs : tostring_header ⟨id, e, r, false⟩ lc =
        hexRender (Header.fullid ⟨id, e, r, false⟩ &&& (2 ^ 31 - 1)) lc := rfl
    rw [hs, hveq, toheader_fields,
      tohex_hexRender lc (id + 2 ^ 29 * e.toNat + 2 ^ 30 * r.toNat) (by omega)]
    have hb11 : decide (2 ^ 11 ≤ (id + 2 ^ 29 * e.toNat + 2 ^ 30 * r.toNat) % 2 ^ 29) = false := by
      rw [h1]; simp; omega
    rw [Header.mk.injEq]
    refine ⟨h1, hbe, hbr, ?_⟩
    rw [hbx, hb11]
    simp
  | true =>
    have hid11 : 2 ^ 11 ≤ id := by
      rcases hx with hx | hx
      · exact absurd hx (by simp)
      · exact hx
    have hpow : (16 : Nat) ^ 8 = 2 ^ 32 := by norm_num
    have hlen : (hexRender (id + 2 ^ 29 * e.toNat + 2 ^ 30 * r.toNat) lc).length ≤ 8 :=
      hexRender_length lc _ 8 (by omega) (by norm_num)
    have hs : tostring_header ⟨id, e, r, true⟩ lc =
        leftPad0 8 (hexRender (Header.fullid ⟨id, e, r, true⟩ &&& (2 ^ 31 - 1)) lc) := rfl
    have hslen : (leftPad0 8 (hexRender (id + 2 ^ 29 * e.toNat + 2 ^ 30 * r.toNat) lc)).length
        = 8 := by
      rw [leftPad0, List.length_append, List.length_replicate]
      omega
    rw [hs, hveq, toheader_fields,
      tohex_leftPad0_hexRender lc 8 (id + 2 ^ 29 * e.toNat + 2 ^ 30 * r.toNat) (by omega)]
    have hb11 : decide (2 ^ 11 ≤ (id + 2 ^ 29 * e.toNat + 2 ^ 30 * r.toNat) % 2 ^ 29) = true := by
      rw [h1]; simpa using hid11
    have hb8 : decide ((leftPad0 8 (hexRender (id + 2 ^ 29 * e.toNat + 2 ^ 30 * r.toNat) lc)).length
        = 8) = true := by simpa using hslen
    rw [Header.mk.injEq]
    refine ⟨h1, hbe, hbr, ?_⟩
    rw [hbx, hb11, hb8]
    simp

/-- Witness for C1 (amended) at the concrete extended header with id `0x1234`. -/
theorem tostring_toheader_roundtrip_witness :
    (mkHeader 0x1234 true false false).isValid = true ∧
      toheader (tostring_header (mkHeader 0x1234 true false false) false) =
        mkHeader 0x1234 true false false :=
  ⟨by decide, tostring_toheader_roundtrip (mkHeader 0x1234 true false false) false
    (by decide) (Or.inr (by decide))⟩

/-- C8 (confirmed): encoding a byte buffer with `buffer2hex` (two forced digits
per byte) and decoding the text with `hex2buffer` succeeds and recovers the
buffer exactly, for either case flag and either padding flag. -/
theorem hex2buffer_buffer2hex_roundtrip (b : List Nat) (lc pad : Bool)
    (_hne : b ≠ []) (hb : ∀ x ∈ b, x < 256) :
    hex2buffer [] (buffer2hex b lc) pad = (true, b) := by
  have hlen := buffer2hex_length b lc
  rw [hex2buffer, if_neg (by omega)]
  have heven : ¬ (buffer2hex b lc).length % 2 ≠ 0 := by omega
  rw [if_neg heven]
  have hout : (resize [] ((buffer2hex b lc).length / 2)).length = 0 + b.length := by
    rw [resize]
    simp
    omega
  rw [buffer2hex_flatten] at hout ⊢
  rw [hex2bufferLoop_decode lc b _ 0 hout hb]
  simp

/-- Witness for C8 at the concrete buffer `[171, 0, 255]`. -/
theorem hex2buffer_buffer2hex_roundtrip_witness :
    ([171, 0, 255] ≠ ([] : List Nat)) ∧
      hex2buffer [] (buffer2hex [171, 0, 255] true) false = (true, [171, 0, 255]) :=
  ⟨by decide, hex2buffer_buffer2hex_roundtrip [171, 0, 255] true false (by decide) (by decide)⟩

/-- C10 (confirmed): `buffer2hex` never takes its failure branch — every byte
(after the `char → uint8_t` conversion) has both nibbles below 16, so `byte2hex`
always returns two hex characters; the result has exactly `2 * length` hex
digits and is never the empty failure result on non-empty input. -/
theorem buffer2hex_never_fails (inp : List Nat) (lc : Bool) :
    (buffer2hex inp lc).length = 2 * inp.length ∧
      (∀ c ∈ buffer2hex inp lc, (hex2dec c).isSome = true) ∧
      (inp ≠ [] → buffer2hex inp lc ≠ []) := by
  refine ⟨buffer2hex_length inp lc, ?_, ?_⟩
  · intro c hc
    rw [buffer2hex_flatten] at hc
    rcases List.mem_flatten.mp hc with ⟨l, hl, hcl⟩
    rcases List.mem_map.mp hl with ⟨d, _, rfl⟩
    rw [byte2hex_pad] at hcl
    have hmod : d % 256 < 256 := Nat.mod_lt _ (by norm_num)
    have hhi : (d % 256) >>> 4 < 16 := by
      rw [Nat.shiftRight_eq_div_pow]
      omega
    have hlo : d % 256 &&& 0xf < 16 := by
      have h15 : (0xf : Nat) = 2 ^ 4 - 1 := rfl
      rw [h15, Nat.and_pow_two_sub_one_eq_mod]
      omega
    simp only [List.mem_cons, List.mem_singleton, List.not_mem_nil, or_false] at hcl
    rcases hcl with rfl | rfl
    · rw [hex2dec_dec2hex _ hhi lc]
      rfl
    · rw [hex2dec_dec2hex _ hlo lc]
      rfl
  · intro hne hnil
    have := buffer2hex_length inp lc
    rw [hnil] at this
    simp at this
    exact hne this

/-- Witness for C10's non-emptiness clause at the concrete buffer `[7]`. -/
theorem buffer2hex_never_fails_witness :
    ([7] ≠ ([] : List Nat)) ∧ buffer2hex [7] false ≠ [] :=
  ⟨by decide, (buffer2hex_never_fails [7] false).2.2 (by decide)⟩

/-- The `hex2buffer` loop succeeds on an even-length input exactly when every
character is a hex digit. -/
theorem hex2bufferLoop_true_iff :
    ∀ (inp : List Char) (out : List Nat) (i : Nat), inp.length % 2 = 0 →
      ((hex2bufferLoop out inp i).1 = true ↔ ∀ c ∈ inp, (hex2dec c).isSome = true)
  | [], out, i, _ => by simp [hex2bufferLoop]
  | [c], out, i, h => by simp at h
  | c1 :: c2 :: rest, out, i, h => by
    rw [hex2bufferLoop]
    rcases hc1 : hex2dec c1 with _ | hi
    · simp [hc1]
    · rcases hc2 : hex2dec c2 with _ | lo
      · simp [hc1, hc2]
      · have hrest : rest.length % 2 = 0 := by
          simp only [List.length_cons] at h
          omega
        have ih := hex2bufferLoop_true_iff rest (out.set i ((hi <<< 4) ||| lo)) (i + 1) hrest
        simp only [List.mem_cons, hc1, hc2]
        rw [ih]
        constructor
        · intro hall c hc
          rcases hc with rfl | rfl | hc
          · rw [hc1]; rfl
          · rw [hc2]; rfl
          · exact hall c hc
        · intro hall c hc
          exact hall c (Or.inr (Or.inr hc))

/-- C5 counterexample: on the input `"0AZZ"` (even length, non-hex tail) with an
initially empty output buffer, `hex2buffer` reports failure but has already
resized the buffer and written the first decoded byte — the output buffer is
**not** left unchanged on failure. -/
theorem hex2buffer_partial_write_cex :
    (hex2buffer [] ['0', 'A', 'Z', 'Z'] false).1 = false ∧
      (hex2buffer [] ['0', 'A', 'Z', 'Z'] false).2 ≠ [] := by decide

/-- C5 (amended): every decode failure is reported — `hex2buffer` returns
`true` exactly when the length is even or padding is requested, and every
character is a hex digit — and on the odd-length-without-padding failure the
output buffer is returned unchanged.  (On a non-hex character the buffer may
already have been resized and partially written; see the counterexample.) -/
theorem hex2buffer_failure_semantics (out : List Nat) (inp : List Char) (pad : Bool) :
    ((hex2buffer out inp pad).1 = true ↔
        ((inp.length % 2 = 0 ∨ pad = true) ∧ ∀ c ∈ inp, (hex2dec c).isSome = true)) ∧
      (inp.length % 2 ≠ 0 ∧ pad = false → hex2buffer out inp pad = (false, out)) := by
  constructor
  · by_cases hodd : inp.length % 2 ≠ 0 ∧ pad = false
    · rw [hex2buffer, if_pos hodd]
      simp [hodd.1, hodd.2]
    · rw [hex2buffer, if_neg hodd]
      by_cases he : inp.length % 2 = 0
      · rw [if_neg (by omega)]
        dsimp only
        rw [hex2bufferLoop_true_iff inp _ 0 he]
        simp [he]
      · have hpad : pad = true := by
          cases pad
          · exact absurd ⟨he, rfl⟩ hodd
          · rfl
        subst hpad
        rw [if_pos (by omega)]
        dsimp only
        rw [hex2bufferLoop_true_iff ('0' :: inp) _ 0 (by simp only [List.length_cons]; omega)]
        constructor
        · intro hall
          exact ⟨Or.inr rfl, fun c hc => hall c (List.mem_cons_of_mem _ hc)⟩
        · intro hall c hc
          rcases List.mem_cons.mp hc with rfl | hc
          · decide
          · exact hall.2 c hc
  · intro hcond
    rw [hex2buffer, if_pos hcond]

/-- Witness for C5 (amended): a successful decode of `"0A"` through the iff. -/
theorem hex2buffer_failure_semantics_witness :
    (hex2buffer [] ['0', 'A'] false).1 = true :=
  ((hex2buffer_failure_semantics [] ['0', 'A'] false).1).mpr
    ⟨Or.inl (by decide), by decide⟩

/-- C9 counterexample: for the input `"fff#qq"` — which contains `'#'` and
whose payload `"qq"` fails hex decoding — `toframe` returns a frame equal to
the `0xfff` sentinel, because the header text itself parses to the standard
id `0xfff`. -/
theorem toframe_bad_payload_sentinel_cex :
    ('#' ∈ "fff#qq".toList) ∧ (hex2buffer [] ("qq".toList) false).1 = false ∧
      toframe ("fff#qq".toList) = sentinelFrame := by decide

/-- C9 (amended): when the input contains `'#'` and the payload after it fails
hex decoding, `toframe` keeps the parsed header and returns it with `dlc = 0`,
silently dropping the malformed payload.  (The result coincides with the
`0xfff` sentinel only in the edge case where the header text itself parses to
standard id `0xfff`; see the counterexample.) -/
theorem toframe_bad_payload (s pre post : List Char)
    (hsep : findSep s = some (pre, post))
    (hfail : (hex2buffer [] post false).1 = false) :
    toframe s = ⟨toheader pre, 0, List.replicate 8 0⟩ := by
  rw [toframe, hsep]
  dsimp only
  rcases hh : hex2buffer [] post false with ⟨b1, b2⟩
  rw [hh] at hfail
  simp only at hfail
  subst hfail
  by_cases hv : (toheader pre).isValid = true
  · rw [if_pos hv]
  · rw [if_neg hv]

/-- Witness for C9 (amended) at the concrete input `"123#ZZ"`. -/
theorem toframe_bad_payload_witness :
    toframe ("123#ZZ".toList) = ⟨toheader ("123".toList), 0, List.replicate 8 0⟩ :=
  toframe_bad_payload ("123#ZZ".toList) ("123".toList) ("ZZ".toList)
    (by decide) (by decide)

/-- `splitDelim` finds nothing on a string free of the delimiter characters. -/
theorem splitDelim_eq_none (s : List Char) (h : ∀ c ∈ s, isFilterDelim c = false) :
    splitDelim s = none := by
  induction s with
  | nil => rfl
  | cons c cs ih =>
    rw [splitDelim, if_neg (by simp [h c (List.mem_cons_self c cs)]),
      ih (fun x hx => h x (List.mem_cons_of_mem c hx))]
    rfl

/-- C4 counterexample: the specification string `"123"` contains none of the
separators `':' '~' '-' '_'`, yet `tofilter` does not signal a parse error — it
returns a (mask) filter rather than the null pointer. -/
theorem tofilter_no_delim_cex : tofilter ("123".toList) ≠ none := by decide

/-- C4 (amended): on a specification string with none of the separator
characters, `tofilter` silently defaults: the `switch` runs its `':'` case and
builds a non-inverted mask filter from the whole string with the relaxed
default mask — construction never signals a parse error for such inputs. -/
theorem tofilter_no_delim (s : List Char) (h : ∀ c ∈ s, isFilterDelim c = false) :
    tofilter s = some (FrameFilter.mask (toheader s).fullid MASK_RELAXED false) := by
  rw [tofilter, splitDelim_eq_none s h]

/-- Witness for C4 (amended) at the concrete input `"1A"`. -/
theorem tofilter_no_delim_witness :
    tofilter ("1A".toList) =
      some (FrameFilter.mask (toheader ("1A".toList)).fullid MASK_RELAXED false) :=
  tofilter_no_delim ("1A".toList) (by decide)

/-- C2 counterexample: `toframe "000007FF#"` does **not** set `is_extended`:
the heuristic needs both an 8-character id text and a decoded id `≥ 2^11`, and
`0x7FF < 2^11`. -/
theorem toframe_000007FF_cex :
    ¬ ((toframe ("000007FF#".toList)).header.is_extended = true) := by decide

/-- C2 (amended): `toframe "000007FF#"` yields a standard (`is_extended =
false`) header with id `0x7FF` and an empty payload; the 8-character length
alone does not force extended format, since the conjunct `id ≥ 2^11` of the
heuristic fails. -/
theorem toframe_000007FF :
    toframe ("000007FF#".toList) =
      ⟨mkHeader 0x7FF false false false, 0, List.replicate 8 0⟩ := by decide

end Can
